import Mathlib

/-!
# Verification of the case-buddy-transcribe transcription core

Shallow embedding of the multi-provider transcription orchestration layer
(`src/components/SettingsDialog.tsx` service section, `src/services/transcriptionService.ts`,
and the `src/unnamed/part_009` revision), together with proofs of the
specification's testable properties about it.

Conventions of the embedding:
* JS `number` timestamps are modelled as rationals (`ℚ`); provider millisecond
  values arrive as integers and are divided by 1000 exactly, which is what the
  spec demands ("no rounding error beyond floating point").
* A JS value that may be `undefined`/`null` is an `Option`.
* The JS `speaker` field has type `string | number | undefined`; it is modelled
  as `Option String`, where a numeric speaker value stands for its decimal
  string form (the source only ever uses it through the template literal
  interpolation, which stringifies it).
* The TS field `end` is renamed `stop` (`end` is a Lean keyword).
* Network interactions of the polling loops are modelled by a stream
  `Nat → _Response` giving the provider's answer to the n-th status request.
-/

/-! ## JavaScript string primitives

The source uses `String.prototype.trim`, `toLowerCase`, `split`, and a global
`replace`. They are embedded as structural recursions over the character list
of the string, so that every theorem below can be checked by evaluation. -/

/-- JS `trim()`: drop whitespace characters from both ends. -/
def jsTrim (s : String) : String :=
  ⟨((s.data.dropWhile Char.isWhitespace).reverse.dropWhile Char.isWhitespace).reverse⟩

/-- JS `toLowerCase()` (ASCII range, which is all the source compares). -/
def jsToLower (s : String) : String :=
  ⟨s.data.map Char.toLower⟩

/-- Helper of `jsSplit`: accumulate the current field, emit on each separator. -/
def jsSplitAux (sep : Char) : List Char → List Char → List String
  | [], acc => [⟨acc.reverse⟩]
  | c :: cs, acc =>
    if c = sep then ⟨acc.reverse⟩ :: jsSplitAux sep cs []
    else jsSplitAux sep cs (c :: acc)

/-- JS `split(sep)` for a one-character separator: `"".split('/') = [""]`,
`"a/b/".split('/') = ["a","b",""]`. -/
def jsSplit (s : String) (sep : Char) : List String :=
  jsSplitAux sep s.data []

/-- Helper of `jsRemoveAll`, fuelled so that it is structural: delete every
occurrence of `pat` scanning left to right (the effect of
`replace(/pat/g, '')`). -/
def jsRemoveAllAux (pat : List Char) : Nat → List Char → List Char
  | 0, _ => []
  | _, [] => []
  | fuel + 1, c :: cs =>
    if pat.isPrefixOf (c :: cs) then jsRemoveAllAux pat fuel (cs.drop (pat.length - 1))
    else c :: jsRemoveAllAux pat fuel cs

/-- JS `replace(/pat/g, '')` for a non-empty literal pattern. -/
def jsRemoveAll (pat : String) (s : String) : String :=
  ⟨jsRemoveAllAux pat.data s.data.length s.data⟩

/-- `TranscriptionProvider` enum from `src/types.ts`. -/
inductive TranscriptionProvider where
  | GEMINI
  | OPENAI
  | ASSEMBLYAI
deriving DecidableEq, Repr

/-- `TranscriptSegment` from `src/types.ts`: one speech unit with timestamps in
seconds. The TS field `end` is called `stop` here. -/
structure TranscriptSegment where
  start : ℚ
  stop : ℚ
  speaker : String
  text : String
deriving DecidableEq, Repr

/-- `TranscriptionResult` from `src/types.ts` (the `summary` field is never set
by the transcription core and is omitted). -/
structure TranscriptionResult where
  text : String
  segments : Option (List TranscriptSegment) := none
  detectedLanguage : Option String := none
  providerUsed : TranscriptionProvider
deriving DecidableEq, Repr

/-- `AssemblyWordResponse` from `SettingsDialog.tsx` (service section):
one word-level token of an AssemblyAI transcript, timestamps in milliseconds. -/
structure AssemblyWordResponse where
  start : Int
  stop : Int
  text : String
  speaker : Option String := none
  punctuated_word : Option String := none
deriving DecidableEq, Repr

/-- `AssemblyUtteranceResponse` from `SettingsDialog.tsx` (service section). -/
structure AssemblyUtteranceResponse where
  start : Int
  stop : Int
  speaker : Option String := none
  text : String
deriving DecidableEq, Repr

/-- `AssemblyTranscriptResponse` from `SettingsDialog.tsx` (service section).
The extra `audio_duration` field is present on the wire and read only by the
`part_009` revision's mapper; the typed interface omits it, the JSON carries it. -/
structure AssemblyTranscriptResponse where
  id : String
  status : String
  text : Option String := none
  language_code : Option String := none
  error : Option String := none
  utterances : Option (List AssemblyUtteranceResponse) := none
  words : Option (List AssemblyWordResponse) := none
  audio_duration : Option ℚ := none
deriving DecidableEq, Repr

/-- `formatSpeakerLabel` (`SettingsDialog.tsx` lines 461-466): a missing or
blank speaker value falls back to `Speaker {fallbackIndex}`, otherwise the
provider's value is interpolated after `Speaker `. -/
def formatSpeakerLabel (speaker : Option String) (fallbackIndex : Nat) : String :=
  match speaker with
  | none => "Speaker " ++ toString fallbackIndex
  | some s =>
    if (jsTrim s).length = 0 then "Speaker " ++ toString fallbackIndex
    else "Speaker " ++ s

/-- The blankness test `word.speaker === undefined || word.speaker === null ||
`${word.speaker}`.trim().length === 0` used inside `mapWordsToSegments`. -/
def speakerBlank (speaker : Option String) : Bool :=
  match speaker with
  | none => true
  | some s => (jsTrim s).length = 0

/-- The token choice `word.punctuated_word?.trim() || word.text.trim()`:
the trimmed punctuated form when present and non-empty, else the trimmed raw
text. -/
def wordToken (w : AssemblyWordResponse) : String :=
  let p := jsTrim (w.punctuated_word.getD "")
  if p = "" then jsTrim w.text else p

/-- Loop state of the `words.forEach` in `mapWordsToSegments`: the pushed
segments, the segment being built (`current`), and the fallback speaker
counter. -/
structure WordsState where
  segments : List TranscriptSegment
  current : Option TranscriptSegment
  fallbackSpeakerIndex : Nat
deriving Repr

/-- The speaker label chosen for a word together with the fallback counter
after processing it. Mirrors the `speakerLabel` computation of
`mapWordsToSegments`, including the fact that `fallbackSpeakerIndex++` fires
exactly when the fallback branch of the `||` is evaluated (blank speaker and
no usable `current?.speaker`), even if the word's token later turns out blank. -/
def stepLabelIdx (st : WordsState) (w : AssemblyWordResponse) : String × Nat :=
  if speakerBlank w.speaker then
    match st.current with
    | some c =>
      if c.speaker = "" then
        ("Speaker " ++ toString st.fallbackSpeakerIndex, st.fallbackSpeakerIndex + 1)
      else (c.speaker, st.fallbackSpeakerIndex)
    | none =>
      ("Speaker " ++ toString st.fallbackSpeakerIndex, st.fallbackSpeakerIndex + 1)
  else (formatSpeakerLabel w.speaker st.fallbackSpeakerIndex, st.fallbackSpeakerIndex)

/-- One iteration of the `words.forEach` body in `mapWordsToSegments`
(`SettingsDialog.tsx` lines 475-495): compute the label, skip blank tokens,
extend `current` when the speaker matches, otherwise flush it and open a new
segment. -/
def mapWordsStep (st : WordsState) (w : AssemblyWordResponse) : WordsState :=
  if wordToken w = "" then { st with fallbackSpeakerIndex := (stepLabelIdx st w).2 }
  else
    match st.current with
    | some c =>
      if c.speaker = (stepLabelIdx st w).1 then
        { st with
            current := some { c with
              text := jsTrim (c.text ++ " " ++ wordToken w),
              stop := (w.stop : ℚ) / 1000 },
            fallbackSpeakerIndex := (stepLabelIdx st w).2 }
      else
        { segments := st.segments ++ [c],
          current := some
            { start := (w.start : ℚ) / 1000, stop := (w.stop : ℚ) / 1000,
              speaker := (stepLabelIdx st w).1, text := wordToken w },
          fallbackSpeakerIndex := (stepLabelIdx st w).2 }
    | none =>
      { st with
          current := some
            { start := (w.start : ℚ) / 1000, stop := (w.stop : ℚ) / 1000,
              speaker := (stepLabelIdx st w).1, text := wordToken w },
          fallbackSpeakerIndex := (stepLabelIdx st w).2 }

/-- The segments produced so far if the loop stopped now: the pushed segments
plus the trailing `current` (the source's final `if (current) segments.push(current)`). -/
def pendingSegments (st : WordsState) : List TranscriptSegment :=
  st.segments ++ st.current.toList

/-- `mapWordsToSegments` (`SettingsDialog.tsx` lines 468-499): `undefined` for a
missing or empty word list, else the coalesced segments (possibly the empty
array when every token is blank). -/
def mapWordsToSegments (words : Option (List AssemblyWordResponse)) :
    Option (List TranscriptSegment) :=
  match words with
  | none => none
  | some ws =>
    if ws.isEmpty then none
    else some (pendingSegments (ws.foldl mapWordsStep ⟨[], none, 1⟩))

/-- One utterance mapped to a segment: `index` is the 0-based position in the
utterance list, so the fallback label is `Speaker (index+1)`. -/
def utteranceToSegment (index : Nat) (u : AssemblyUtteranceResponse) : TranscriptSegment :=
  { start := (u.start : ℚ) / 1000
    stop := (u.stop : ℚ) / 1000
    speaker := formatSpeakerLabel u.speaker (index + 1)
    text := u.text }

/-- The `transcript.utterances?.map((utterance, index) => ...)` of
`mapAssemblyResponseToResult`, written with an explicit running index. -/
def segmentsFromUtterancesList :
    Nat → List AssemblyUtteranceResponse → List TranscriptSegment
  | _, [] => []
  | i, u :: rest => utteranceToSegment i u :: segmentsFromUtterancesList (i + 1) rest

/-- The placeholder test of `mapAssemblyResponseToResult`: a present, non-empty
`text` whose trimmed lower-case form is the known AssemblyAI placeholder. -/
def isPlaceholderTranscriptText (text : Option String) : Bool :=
  match text with
  | none => false
  | some t =>
    decide (t ≠ "") &&
      decide (jsToLower (jsTrim t) = "assemblyai support pending update to json schema")

/-- The `segments` local of `mapAssemblyResponseToResult`: utterance-derived
segments when non-empty (`... && length > 0 ? ... : undefined`), else the word
fallback (`|| mapWordsToSegments(transcript.words)`). -/
def assemblySegments (t : AssemblyTranscriptResponse) : Option (List TranscriptSegment) :=
  let fromUtterances :=
    match t.utterances with
    | none => none
    | some us =>
      let l := segmentsFromUtterancesList 0 us
      if l.isEmpty then none else some l
  match fromUtterances with
  | some l => some l
  | none => mapWordsToSegments t.words

/-- The `combinedTextFromSegments` local: segment texts joined by a single
space and trimmed, when segments exist at all. -/
def assemblyCombinedText (t : AssemblyTranscriptResponse) : Option String :=
  (assemblySegments t).map fun l =>
    jsTrim (String.intercalate " " (l.map TranscriptSegment.text))

/-- `mapAssemblyResponseToResult` (`SettingsDialog.tsx` lines 501-536). -/
def mapAssemblyResponseToResult (t : AssemblyTranscriptResponse) : TranscriptionResult :=
  let segments := assemblySegments t
  let combined := assemblyCombinedText t
  let fallbackText :=
    if !isPlaceholderTranscriptText t.text && (t.text.getD "") ≠ "" then t.text.getD ""
    else ""
  let resolvedText :=
    match combined with
    | some s => if s ≠ "" then s else fallbackText
    | none => fallbackText
  { text := resolvedText
    segments :=
      match segments with
      | some l => if l.isEmpty then none else some l
      | none => none
    detectedLanguage := t.language_code
    providerUsed := TranscriptionProvider.ASSEMBLYAI }

/-! ## Gemini adapter -/

/-- Truncation toward zero, the semantics of the JS `%` operator's implicit
quotient. -/
def jsTruncQ (q : ℚ) : Int :=
  if 0 ≤ q then ⌊q⌋ else -⌊-q⌋

/-- JS `padStart(n, '0')`. -/
def padStartZero (s : String) (n : Nat) : String :=
  ⟨List.replicate (n - s.length) '0'⟩ ++ s

/-- `formatTimestamp` from `transcribeWithGemini` (`SettingsDialog.tsx`
lines 297-301): `Math.floor(seconds / 60)` minutes and
`Math.floor(seconds % 60)` zero-padded seconds. -/
def formatTimestamp (seconds : ℚ) : String :=
  let min : Int := ⌊seconds / 60⌋
  let sec : Int := ⌊seconds - 60 * (jsTruncQ (seconds / 60) : ℚ)⌋
  toString min ++ ":" ++ padStartZero (toString sec) 2

/-- The fence-stripping step of `parseGeminiResponse`:
`text.replace(/```json/g, '').replace(/```/g, '').trim()`. -/
def cleanGeminiText (text : String) : String :=
  jsTrim (jsRemoveAll "```" (jsRemoveAll "```json" text))

/-- `parseGeminiResponse` (`SettingsDialog.tsx` lines 274-295).

`jsonParse` abstracts the platform `JSON.parse` call together with the
subsequent use of the parsed value as an array of segments: it returns
`some segments` when the cleaned text parses as a JSON array of segment
objects, and `none` otherwise. Both a `JSON.parse` exception and the
`TypeError` thrown when the parsed value is not an array are caught by the
same `try`/`catch` in the source, so a single `none` covers them. -/
def parseGeminiResponse (jsonParse : String → Option (List TranscriptSegment))
    (text : String) : TranscriptionResult :=
  match jsonParse (cleanGeminiText text) with
  | some segments =>
    { text := String.intercalate "\n" (segments.map fun s =>
        "[" ++ formatTimestamp s.start ++ "] [" ++ s.speaker ++ "] " ++ s.text)
      segments := some segments
      providerUsed := TranscriptionProvider.GEMINI }
  | none =>
    { text := text
      providerUsed := TranscriptionProvider.GEMINI }

/-- `LARGE_FILE_THRESHOLD` (`SettingsDialog.tsx` line 304,
`transcriptionService.ts` line 67): 10 MB. -/
def LARGE_FILE_THRESHOLD : Nat := 10 * 1024 * 1024

/-- The externally observable calls of `transcribeWithGemini`, in order. -/
inductive GeminiAction where
  | encodeBase64
  | generateInline
  | initiateResumableUpload
  | uploadBytes
  | waitFileActive
  | generateWithFileRef
deriving DecidableEq, Repr

/-- The call sequence `transcribeWithGemini` performs for a blob of
`fileSize` bytes: the branch `if (file.size > LARGE_FILE_THRESHOLD)` selects
the resumable-upload-then-poll path, the `else` branch the inline base64
path. -/
def transcribeWithGeminiActions (fileSize : Nat) : List GeminiAction :=
  if fileSize > LARGE_FILE_THRESHOLD then
    [GeminiAction.initiateResumableUpload, GeminiAction.uploadBytes,
     GeminiAction.waitFileActive, GeminiAction.generateWithFileRef]
  else
    [GeminiAction.encodeBase64, GeminiAction.generateInline]

/-! ## Polling loops

Each loop is embedded against a stream `Nat → _` giving the provider's
response to the n-th status request. Bounded loops are structural recursions
on the remaining attempt budget; the unbounded `part_009` loop is observed
through a fuel parameter, `none` meaning "still polling after that many
iterations". -/

/-- The JSON body returned by the Gemini file-status endpoint, together with
the HTTP-level `response.ok` flag. -/
structure GeminiFileStatusResponse where
  ok : Bool
  state : String
deriving DecidableEq, Repr

/-- The distinct failures `waitForFileActive` can throw. -/
inductive GeminiWaitError where
  | checkFailed
  | processingFailed
  | timedOut
deriving DecidableEq, Repr

/-- The `while (attempt < maxAttempts)` loop of `waitForFileActive`
(`SettingsDialog.tsx` lines 209-224). Returns the outcome together with the
number of status requests issued. -/
def waitForFileActiveLoop (s : Nat → GeminiFileStatusResponse) (attempt : Nat) :
    Nat → Except GeminiWaitError Unit × Nat
  | 0 => (Except.error GeminiWaitError.timedOut, 0)
  | fuel + 1 =>
    if !(s attempt).ok then (Except.error GeminiWaitError.checkFailed, 1)
    else if (s attempt).state = "ACTIVE" then (Except.ok (), 1)
    else if (s attempt).state = "FAILED" then
      (Except.error GeminiWaitError.processingFailed, 1)
    else
      ((waitForFileActiveLoop s (attempt + 1) fuel).1,
       (waitForFileActiveLoop s (attempt + 1) fuel).2 + 1)

/-- `maxAttempts` of `waitForFileActive` (`SettingsDialog.tsx` line 206). -/
def geminiMaxAttempts : Nat := 120

/-- `waitForFileActive` (`SettingsDialog.tsx` lines 202-227,
`transcriptionService.ts` lines 8-33): extract the file id as the last
`'/'`-separated component (`fileUri.split('/').pop()`); an empty id returns
immediately (`if (!fileId) return;`) without issuing any request. -/
def waitForFileActive (fileUri : String) (s : Nat → GeminiFileStatusResponse) :
    Except GeminiWaitError Unit × Nat :=
  let fileId := (jsSplit fileUri '/').getLastD ""
  if fileId = "" then (Except.ok (), 0)
  else waitForFileActiveLoop s 0 geminiMaxAttempts

/-- One poll answer of the AssemblyAI transcript-status endpoint: the
HTTP-level `ok` flag and the transcript body. -/
structure AssemblyStatusResponse where
  ok : Bool
  transcript : AssemblyTranscriptResponse
deriving Repr

/-- The distinct failures of the `SettingsDialog.tsx` AssemblyAI poll loop. -/
inductive AssemblyPollError where
  | pollFailed
  | providerError (msg : String)
  | timedOut
deriving DecidableEq, Repr

/-- `maxAttempts` of the AssemblyAI poll (`SettingsDialog.tsx` line 589). -/
def assemblyMaxAttempts : Nat := 120

/-- The `while (attempt < maxAttempts)` status poll of
`transcribeWithAssemblyAI` (`SettingsDialog.tsx` lines 592-618): completed
transcripts are mapped through `mapAssemblyResponseToResult`, an explicit
error status throws the provider's message, exhausting the bound throws the
timeout error. -/
def assemblyPollLoop (s : Nat → AssemblyStatusResponse) (attempt : Nat) :
    Nat → Except AssemblyPollError TranscriptionResult
  | 0 => Except.error AssemblyPollError.timedOut
  | fuel + 1 =>
    if !(s attempt).ok then Except.error AssemblyPollError.pollFailed
    else if (s attempt).transcript.status = "completed" then
      Except.ok (mapAssemblyResponseToResult (s attempt).transcript)
    else if (s attempt).transcript.status = "error" then
      Except.error (AssemblyPollError.providerError
        ((s attempt).transcript.error.getD "AssemblyAI transcription failed."))
    else assemblyPollLoop s (attempt + 1) fuel

/-- The poll phase of the `SettingsDialog.tsx` AssemblyAI adapter, started
with attempt counter 0 and the full attempt budget. -/
def transcribeWithAssemblyAIPoll (s : Nat → AssemblyStatusResponse) :
    Except AssemblyPollError TranscriptionResult :=
  assemblyPollLoop s 0 assemblyMaxAttempts

/-- The completed-transcript mapping of the `part_009` revision's
`transcribeWithAssemblyAI` (lines 307-334): utterances mapped directly with
`Speaker ${u.speaker}` (JS stringifies a missing speaker as `"undefined"`),
plus a whole-transcript fallback segment when no utterances exist and the
flat text is non-empty. -/
def part009MapCompleted (t : AssemblyTranscriptResponse) : TranscriptionResult :=
  let utteranceSegments := (t.utterances.getD []).map fun u =>
    ({ start := (u.start : ℚ) / 1000, stop := (u.stop : ℚ) / 1000,
       speaker := "Speaker " ++ u.speaker.getD "undefined",
       text := u.text } : TranscriptSegment)
  let segments :=
    if utteranceSegments.isEmpty then
      if t.text.getD "" = "" then utteranceSegments
      else [{ start := 0, stop := t.audio_duration.getD 0,
              speaker := "Speaker", text := t.text.getD "" }]
    else utteranceSegments
  { text := t.text.getD ""
    segments := some segments
    detectedLanguage := t.language_code
    providerUsed := TranscriptionProvider.ASSEMBLYAI }

/-- Terminal outcomes of the `part_009` polling loop. -/
inductive Part009PollOutcome where
  | completed (r : TranscriptionResult)
  | failed (msg : String)
deriving Repr

/-- The `while (true)` status poll of the `part_009` revision's
`transcribeWithAssemblyAI` (lines 300-346), observed for `fuel` iterations:
`none` means the loop is still polling after `fuel` iterations. The loop has
no attempt bound and no timeout branch; it only leaves on a `completed` or
`error` status. -/
def part009PollLoop (s : Nat → AssemblyTranscriptResponse) (attempt : Nat) :
    Nat → Option Part009PollOutcome
  | 0 => none
  | fuel + 1 =>
    if (s attempt).status = "completed" then
      some (Part009PollOutcome.completed (part009MapCompleted (s attempt)))
    else if (s attempt).status = "error" then
      some (Part009PollOutcome.failed
        ("AssemblyAI Processing Failed: " ++ (s attempt).error.getD "undefined"))
    else part009PollLoop s (attempt + 1) fuel

/-! ## Claim-level predicates and concrete inputs -/

/-- The invariant claimed of the result's `segments` field: absent or
non-empty, never an empty array. -/
def segmentsFieldOk (r : TranscriptionResult) : Bool :=
  match r.segments with
  | none => true
  | some l => !l.isEmpty

/-- A segment's timestamps both come from some word of `ws`, divided exactly
by 1000. -/
def timestampsFromWords (ws : List AssemblyWordResponse) (s : TranscriptSegment) : Prop :=
  (∃ w ∈ ws, s.start = (w.start : ℚ) / 1000) ∧ (∃ w ∈ ws, s.stop = (w.stop : ℚ) / 1000)

/-- The starts of a segment list, for order-preservation statements. -/
def segStarts (l : List TranscriptSegment) : List ℚ :=
  l.map TranscriptSegment.start

/-- Utterance response with a leading space in a segment text: the joined
segment text differs from its trimmed form here. -/
def exLeadingSpaceResponse : AssemblyTranscriptResponse :=
  { id := "t", status := "completed", text := some "flat text from provider",
    utterances := some [{ start := 0, stop := 1000, speaker := none, text := " First" }] }

/-- The spec's exact segment-preferred-flattening scenario: two utterances
`First line` / `Second line` and an unrelated flat `text`. -/
def exFlattenResponse : AssemblyTranscriptResponse :=
  { id := "t", status := "completed", text := some "something entirely different",
    utterances := some [
      { start := 1200, stop := 2400, speaker := some "1", text := "First line" },
      { start := 2500, stop := 4000, speaker := some "2", text := "Second line" }] }

/-- The spec's timestamp-conversion scenario: one utterance
`start = 1200 ms, end = 2400 ms`. -/
def exTimestampResponse : AssemblyTranscriptResponse :=
  { id := "t", status := "completed",
    utterances := some [{ start := 1200, stop := 2400, speaker := none, text := "hi" }] }

/-- Word list for the fallback-speaker-labeling scenario: unlabeled first
word, unlabeled follower, explicit speaker `2`, unlabeled follower. -/
def exSpeakerWords : List AssemblyWordResponse :=
  [{ start := 0, stop := 400, text := "Hello" },
   { start := 500, stop := 900, text := "there" },
   { start := 1000, stop := 1400, text := "Hi", speaker := some "2" },
   { start := 1500, stop := 1900, text := "back" }]

/-- Placeholder flat text in mixed case with padding, and no usable segments. -/
def exPlaceholderResponse : AssemblyTranscriptResponse :=
  { id := "t", status := "completed",
    text := some "  AssemblyAI Support Pending Update to JSON Schema ",
    utterances := some [], words := some [] }

/-- Time-ordered utterances for the order-preservation scenario. -/
def exOrderedResponse : AssemblyTranscriptResponse :=
  { id := "t", status := "completed", text := some "",
    utterances := some [
      { start := 0, stop := 900, speaker := some "1", text := "one" },
      { start := 800, stop := 1600, speaker := some "2", text := "two" },
      { start := 2400, stop := 3000, speaker := some "1", text := "three" }] }

/-- A Gemini file-status endpoint that never leaves the processing state. -/
def alwaysProcessingGemini : Nat → GeminiFileStatusResponse :=
  fun _ => { ok := true, state := "PROCESSING" }

/-- An AssemblyAI status endpoint that never leaves the processing state. -/
def alwaysProcessingAssembly : Nat → AssemblyStatusResponse :=
  fun _ => { ok := true, transcript := { id := "t", status := "processing" } }

/-- The same perpetually-processing endpoint as seen by the `part_009` loop
(which reads the body directly, without an `ok` check). -/
def alwaysProcessingPart009 : Nat → AssemblyTranscriptResponse :=
  fun _ => { id := "t", status := "processing" }

/-! ## Basic facts about `mapAssemblyResponseToResult` -/

/-- The `segments` field of the result, written without the intermediate lets. -/
theorem mapAssembly_segments_eq (t : AssemblyTranscriptResponse) :
    (mapAssemblyResponseToResult t).segments
      = match assemblySegments t with
        | some l => if l.isEmpty then none else some l
        | none => none := rfl

/-- The `text` field of the result, written without the intermediate lets. -/
theorem mapAssembly_text_eq (t : AssemblyTranscriptResponse) :
    (mapAssemblyResponseToResult t).text
      = match assemblyCombinedText t with
        | some s =>
          if s ≠ "" then s
          else
            if !isPlaceholderTranscriptText t.text && (t.text.getD "") ≠ "" then t.text.getD ""
            else ""
        | none =>
          if !isPlaceholderTranscriptText t.text && (t.text.getD "") ≠ "" then t.text.getD ""
          else "" := rfl

/-- Claim C7: `transcribeWithGemini` takes the inline base64 single-request
path exactly when the blob size is at or below the 10 MB threshold, and the
resumable-upload-then-poll path exactly when the size strictly exceeds it; a
blob of exactly the threshold size goes inline. -/
theorem c7_gemini_size_threshold_branching (fileSize : Nat) :
    (transcribeWithGeminiActions fileSize
        = [GeminiAction.encodeBase64, GeminiAction.generateInline]
      ↔ fileSize ≤ LARGE_FILE_THRESHOLD)
    ∧ (transcribeWithGeminiActions fileSize
        = [GeminiAction.initiateResumableUpload, GeminiAction.uploadBytes,
           GeminiAction.waitFileActive, GeminiAction.generateWithFileRef]
      ↔ LARGE_FILE_THRESHOLD < fileSize)
    ∧ transcribeWithGeminiActions LARGE_FILE_THRESHOLD
        = [GeminiAction.encodeBase64, GeminiAction.generateInline] := by
  refine ⟨?_, ?_, ?_⟩
  · unfold transcribeWithGeminiActions
    split_ifs with h
    · simp only [List.cons.injEq]
      constructor
      · intro hco
        exact absurd hco.1 (by decide)
      · intro hle; omega
    · simp only [true_iff, List.cons.injEq, and_self, iff_true]
      omega
  · unfold transcribeWithGeminiActions
    split_ifs with h
    · simp only [List.cons.injEq, and_self, true_iff, iff_true]
      omega
    · simp only [List.cons.injEq]
      constructor
      · intro hco
        exact absurd hco.1 (by decide)
      · intro hlt; omega
  · unfold transcribeWithGeminiActions
    rw [if_neg (by omega)]

/-- Witness for C7: a 5 MB blob goes inline, a blob one byte over the
threshold takes the resumable path, the threshold itself goes inline. -/
theorem c7_gemini_size_threshold_branching_witness :
    transcribeWithGeminiActions (5 * 1024 * 1024)
        = [GeminiAction.encodeBase64, GeminiAction.generateInline]
    ∧ transcribeWithGeminiActions (10 * 1024 * 1024 + 1)
        = [GeminiAction.initiateResumableUpload, GeminiAction.uploadBytes,
           GeminiAction.waitFileActive, GeminiAction.generateWithFileRef]
    ∧ transcribeWithGeminiActions (10 * 1024 * 1024)
        = [GeminiAction.encodeBase64, GeminiAction.generateInline] :=
  ⟨(c7_gemini_size_threshold_branching (5 * 1024 * 1024)).1.mpr (by norm_num [LARGE_FILE_THRESHOLD]),
   (c7_gemini_size_threshold_branching (10 * 1024 * 1024 + 1)).2.1.mpr
     (by norm_num [LARGE_FILE_THRESHOLD]),
   (c7_gemini_size_threshold_branching (10 * 1024 * 1024)).2.2⟩

/-- Claim C8: when the cleaned Gemini response does not parse as a JSON array
of segments, `parseGeminiResponse` does not throw: it returns the raw response
string as `text` with no `segments`. -/
theorem c8_parse_failure_returns_raw_text
    (jsonParse : String → Option (List TranscriptSegment)) (text : String)
    (h : jsonParse (cleanGeminiText text) = none) :
    parseGeminiResponse jsonParse text
      = { text := text, segments := none, detectedLanguage := none,
          providerUsed := TranscriptionProvider.GEMINI } := by
  unfold parseGeminiResponse
  rw [h]

/-- Witness for C8 at a concrete unparseable response. -/
theorem c8_parse_failure_returns_raw_text_witness :
    parseGeminiResponse (fun _ => none) "I could not transcribe this audio."
      = { text := "I could not transcribe this audio.", segments := none,
          detectedLanguage := none, providerUsed := TranscriptionProvider.GEMINI } :=
  c8_parse_failure_returns_raw_text (fun _ => none) "I could not transcribe this audio." rfl

/-- Claim C9: the `segments` field of every `mapAssemblyResponseToResult`
output is either absent or non-empty, never an empty array. -/
theorem c9_segments_field_never_empty_array (t : AssemblyTranscriptResponse) :
    segmentsFieldOk (mapAssemblyResponseToResult t) = true := by
  unfold segmentsFieldOk
  rw [mapAssembly_segments_eq]
  cases assemblySegments t with
  | none => rfl
  | some l =>
    cases l with
    | nil => rfl
    | cons a as => rfl

/-- Claim C10: a `fileUri` whose last `'/'`-separated component is empty makes
`waitForFileActive` return successfully at once, issuing no status request and
throwing nothing. -/
theorem c10_empty_file_id_skips_polling (fileUri : String)
    (s : Nat → GeminiFileStatusResponse)
    (h : (jsSplit fileUri '/').getLastD "" = "") :
    waitForFileActive fileUri s = (Except.ok (), 0) := by
  unfold waitForFileActive
  rw [h]
  rfl

/-- Witness for C10: the empty URI and a URI ending in `/` both return
immediately even against an endpoint that never reports `ACTIVE`. -/
theorem c10_empty_file_id_skips_polling_witness :
    waitForFileActive "" alwaysProcessingGemini = (Except.ok (), 0)
    ∧ waitForFileActive "files/" alwaysProcessingGemini = (Except.ok (), 0) :=
  ⟨c10_empty_file_id_skips_polling "" alwaysProcessingGemini (by decide),
   c10_empty_file_id_skips_polling "files/" alwaysProcessingGemini (by decide)⟩

/-- Claim C4: a flat `text` equal to the AssemblyAI placeholder string up to
letter case and surrounding whitespace is suppressed: when the segments are
absent or contribute no text, the result's `text` is the empty string, never
the placeholder. -/
theorem c4_placeholder_text_suppressed (t : AssemblyTranscriptResponse) (txt : String)
    (htext : t.text = some txt)
    (hph : jsToLower (jsTrim txt) = "assemblyai support pending update to json schema")
    (hsegs : assemblyCombinedText t = none ∨ assemblyCombinedText t = some "") :
    (mapAssemblyResponseToResult t).text = "" := by
  have htxtne : txt ≠ "" := by
    intro he
    rw [he] at hph
    exact absurd hph (by decide)
  have hplaceholder : isPlaceholderTranscriptText t.text = true := by
    rw [htext]
    unfold isPlaceholderTranscriptText
    simp [htxtne, hph]
  rw [mapAssembly_text_eq]
  rcases hsegs with h | h <;> rw [h] <;> simp [hplaceholder]

/-- Witness for C4: mixed-case, whitespace-padded placeholder with empty
utterance and word arrays maps to the empty string. -/
theorem c4_placeholder_text_suppressed_witness :
    (mapAssemblyResponseToResult exPlaceholderResponse).text = "" :=
  c4_placeholder_text_suppressed exPlaceholderResponse
    "  AssemblyAI Support Pending Update to JSON Schema " rfl (by decide) (Or.inl rfl)

/-- The `part_009` poll loop reaches no outcome while the reported status stays
non-terminal, whatever number of iterations is observed. -/
theorem part009PollLoop_still_running (s : Nat → AssemblyTranscriptResponse)
    (h : ∀ n, (s n).status ≠ "completed" ∧ (s n).status ≠ "error") :
    ∀ attempt fuel, part009PollLoop s attempt fuel = none := by
  intro attempt fuel
  induction fuel generalizing attempt with
  | zero => rfl
  | succ n ih =>
    unfold part009PollLoop
    rw [if_neg (h attempt).1, if_neg (h attempt).2]
    exact ih (attempt + 1)

set_option maxRecDepth 10000

/-- Claim C6, settled against the code: with a provider that perpetually
reports a non-terminal status, the `SettingsDialog.tsx` Gemini file-activation
poll and AssemblyAI status poll both throw their timeout errors after 120
attempts — but the `part_009` revision's AssemblyAI status poll never
terminates, for any number of observed iterations: it has no attempt bound. -/
theorem c6_polling_termination_behaviour :
    waitForFileActive "files/abc123" alwaysProcessingGemini
        = (Except.error GeminiWaitError.timedOut, 120)
    ∧ transcribeWithAssemblyAIPoll alwaysProcessingAssembly
        = Except.error AssemblyPollError.timedOut
    ∧ ∀ fuel, part009PollLoop alwaysProcessingPart009 0 fuel = none := by
  have hs : ∀ n, (alwaysProcessingPart009 n).status ≠ "completed"
      ∧ (alwaysProcessingPart009 n).status ≠ "error" := by
    intro n
    constructor <;> simp [alwaysProcessingPart009]
  exact ⟨rfl, rfl, fun fuel =>
    part009PollLoop_still_running alwaysProcessingPart009 hs 0 fuel⟩

/-- Claim C1 fails as stated: here the mapped segments are non-empty, yet the
result's `text` (which the code trims) differs from the segments' texts joined
by a single space, because a segment text carries a leading space. -/
theorem c1_counterexample_leading_space :
    ((mapAssemblyResponseToResult exLeadingSpaceResponse).segments.getD []) ≠ []
    ∧ (mapAssemblyResponseToResult exLeadingSpaceResponse).text
        ≠ String.intercalate " "
            (((mapAssemblyResponseToResult exLeadingSpaceResponse).segments.getD []).map
              TranscriptSegment.text) := by
  constructor
  · decide
  · decide

/-- Claim C1 as amended: when the mapped segments are non-empty and their
texts, joined by a single space and trimmed, are non-empty, the result's
`text` is exactly that trimmed join, overriding the response's flat `text`
field. -/
theorem c1_amended_segment_text_flattening (t : AssemblyTranscriptResponse)
    (segs : List TranscriptSegment)
    (hsegs : (mapAssemblyResponseToResult t).segments = some segs)
    (hne : jsTrim (String.intercalate " " (segs.map TranscriptSegment.text)) ≠ "") :
    (mapAssemblyResponseToResult t).text
      = jsTrim (String.intercalate " " (segs.map TranscriptSegment.text)) := by
  rw [mapAssembly_segments_eq] at hsegs
  have hassembly : assemblySegments t = some segs := by
    cases h : assemblySegments t with
    | none =>
      rw [h] at hsegs
      exact absurd hsegs (by simp)
    | some l =>
      rw [h] at hsegs
      have hsegs' : (if l.isEmpty = true then none else some l) = some segs := hsegs
      by_cases hl : l.isEmpty = true
      · rw [if_pos hl] at hsegs'
        exact absurd hsegs' (by simp)
      · rw [if_neg hl] at hsegs'
        rw [Option.some_inj] at hsegs'
        rw [hsegs']
  have hcomb : assemblyCombinedText t
      = some (jsTrim (String.intercalate " " (segs.map TranscriptSegment.text))) := by
    unfold assemblyCombinedText
    rw [hassembly]
    rfl
  rw [mapAssembly_text_eq, hcomb]
  simp [hne]

/-- Witness for the amended C1 on the spec's own scenario: utterances
`First line` / `Second line` flatten to `"First line Second line"` although
the flat `text` field said something else. -/
theorem c1_amended_segment_text_flattening_witness :
    (mapAssemblyResponseToResult exFlattenResponse).text = "First line Second line" := by
  have h := c1_amended_segment_text_flattening exFlattenResponse
    ((mapAssemblyResponseToResult exFlattenResponse).segments.getD [])
    (by rfl) (by decide)
  rw [h]
  decide

/-! ## Structure of one `mapWordsToSegments` iteration -/

/-- Every iteration of the word loop does one of three things: skip a blank
token (only the fallback counter may move), extend the current segment when
the speaker matches, or flush the current segment and open a new one. -/
theorem mapWordsStep_cases (st : WordsState) (w : AssemblyWordResponse) :
    (wordToken w = "" ∧ mapWordsStep st w
        = { st with fallbackSpeakerIndex := (stepLabelIdx st w).2 })
    ∨ (wordToken w ≠ "" ∧ ∃ c, st.current = some c ∧ c.speaker = (stepLabelIdx st w).1 ∧
        mapWordsStep st w
          = { st with
              current := some { c with
                text := jsTrim (c.text ++ " " ++ wordToken w),
                stop := (w.stop : ℚ) / 1000 },
              fallbackSpeakerIndex := (stepLabelIdx st w).2 })
    ∨ (wordToken w ≠ "" ∧
        mapWordsStep st w
          = { segments := st.segments ++ st.current.toList,
              current := some
                { start := (w.start : ℚ) / 1000, stop := (w.stop : ℚ) / 1000,
                  speaker := (stepLabelIdx st w).1, text := wordToken w },
              fallbackSpeakerIndex := (stepLabelIdx st w).2 }) := by
  by_cases ht : wordToken w = ""
  · left
    refine ⟨ht, ?_⟩
    simp [mapWordsStep, ht]
  · cases hc : st.current with
    | none =>
      right; right
      refine ⟨ht, ?_⟩
      simp [mapWordsStep, ht, hc]
    | some c =>
      by_cases hsp : c.speaker = (stepLabelIdx st w).1
      · right; left
        refine ⟨ht, c, rfl, hsp, ?_⟩
        simp [mapWordsStep, ht, hc, hsp]
      · right; right
        refine ⟨ht, ?_⟩
        simp [mapWordsStep, ht, hc, hsp]


/-- Unfolding of `pendingSegments` on an explicit state. -/
theorem pendingSegments_mk (segs : List TranscriptSegment)
    (cur : Option TranscriptSegment) (idx : Nat) :
    pendingSegments ⟨segs, cur, idx⟩ = segs ++ cur.toList := rfl

/-- Membership in the pending segments after one step: each segment was
already pending, or is the fresh segment of the current word, or keeps a
pending segment's start while ending at the current word's end time. -/
theorem pendingSegments_mapWordsStep_mem (st : WordsState) (w : AssemblyWordResponse) :
    ∀ s ∈ pendingSegments (mapWordsStep st w),
      s ∈ pendingSegments st
      ∨ (s.start = (w.start : ℚ) / 1000 ∧ s.stop = (w.stop : ℚ) / 1000)
      ∨ (∃ c, c ∈ pendingSegments st ∧ s.start = c.start ∧ s.stop = (w.stop : ℚ) / 1000) := by
  intro s hs
  rcases mapWordsStep_cases st w with ⟨ht, heq⟩ | ⟨ht, c, hc, hsp, heq⟩ | ⟨ht, heq⟩
  · rw [heq, pendingSegments_mk] at hs
    left
    exact hs
  · rw [heq, pendingSegments_mk, Option.toList_some] at hs
    rcases List.mem_append.mp hs with h1 | h2
    · left
      exact List.mem_append_left _ h1
    · have hs2 : s = { c with
          text := jsTrim (c.text ++ " " ++ wordToken w),
          stop := (w.stop : ℚ) / 1000 } := List.mem_singleton.mp h2
      right; right
      refine ⟨c, ?_, ?_, ?_⟩
      · unfold pendingSegments
        refine List.mem_append_right _ ?_
        rw [hc, Option.toList_some]
        exact List.mem_singleton_self c
      · rw [hs2]
      · rw [hs2]
  · rw [heq, pendingSegments_mk, Option.toList_some] at hs
    rcases List.mem_append.mp hs with h1 | h2
    · left
      exact h1
    · have hs2 : s = ⟨(w.start : ℚ) / 1000, (w.stop : ℚ) / 1000,
          (stepLabelIdx st w).1, wordToken w⟩ := List.mem_singleton.mp h2
      right; left
      rw [hs2]
      exact ⟨rfl, rfl⟩

/-- The start times of the pending segments after one step: unchanged, or
with the current word's start appended. -/
theorem segStarts_pendingSegments_mapWordsStep (st : WordsState) (w : AssemblyWordResponse) :
    segStarts (pendingSegments (mapWordsStep st w)) = segStarts (pendingSegments st)
    ∨ segStarts (pendingSegments (mapWordsStep st w))
        = segStarts (pendingSegments st) ++ [(w.start : ℚ) / 1000] := by
  rcases mapWordsStep_cases st w with ⟨ht, heq⟩ | ⟨ht, c, hc, hsp, heq⟩ | ⟨ht, heq⟩
  · left
    rw [heq, pendingSegments_mk]
    rfl
  · left
    rw [heq, pendingSegments_mk, Option.toList_some]
    unfold pendingSegments segStarts
    rw [hc, Option.toList_some]
    simp only [List.map_append]
    rfl
  · right
    rw [heq, pendingSegments_mk, Option.toList_some]
    unfold pendingSegments segStarts
    simp [List.map_append]

/-- After one step the first pending segment keeps its speaker, and the
pending list stays non-empty. -/
theorem pendingSegments_mapWordsStep_head (st : WordsState) (w : AssemblyWordResponse)
    (hne : pendingSegments st ≠ []) :
    ((pendingSegments (mapWordsStep st w)).head?).map TranscriptSegment.speaker
        = ((pendingSegments st).head?).map TranscriptSegment.speaker
    ∧ pendingSegments (mapWordsStep st w) ≠ [] := by
  rcases mapWordsStep_cases st w with ⟨ht, heq⟩ | ⟨ht, c, hc, hsp, heq⟩ | ⟨ht, heq⟩
  · rw [heq, pendingSegments_mk]
    exact ⟨rfl, hne⟩
  · rw [heq, pendingSegments_mk, Option.toList_some]
    have hps : pendingSegments st = st.segments ++ [c] := by
      unfold pendingSegments
      rw [hc, Option.toList_some]
    rw [hps]
    constructor
    · cases st.segments <;> simp
    · simp
  · rw [heq, pendingSegments_mk, Option.toList_some]
    unfold pendingSegments at hne ⊢
    constructor
    · cases hl : st.segments ++ st.current.toList with
      | nil => exact absurd hl hne
      | cons a as => rfl
    · simp

/-- A successful word mapping is exactly the pending segments of the final
fold state. -/
theorem mapWordsToSegments_eq_pending (ws : List AssemblyWordResponse)
    (l : List TranscriptSegment) (h : mapWordsToSegments (some ws) = some l) :
    l = pendingSegments (ws.foldl mapWordsStep ⟨[], none, 1⟩) := by
  unfold mapWordsToSegments at h
  have h' : (if ws.isEmpty = true then none
      else some (pendingSegments (ws.foldl mapWordsStep ⟨[], none, 1⟩))) = some l := h
  by_cases he : ws.isEmpty = true
  · rw [if_pos he] at h'
    exact absurd h' (by simp)
  · rw [if_neg he] at h'
    exact (Option.some_inj.mp h').symm

/-- Fold invariant for C2: every pending segment's timestamps come from words
of the full list, divided exactly by 1000. -/
theorem foldl_mapWordsStep_timestamps (allWs : List AssemblyWordResponse) :
    ∀ (ws : List AssemblyWordResponse) (st : WordsState),
      (∀ w ∈ ws, w ∈ allWs) →
      (∀ s ∈ pendingSegments st, timestampsFromWords allWs s) →
      ∀ s ∈ pendingSegments (ws.foldl mapWordsStep st), timestampsFromWords allWs s := by
  intro ws
  induction ws with
  | nil =>
    intro st _ hst
    exact hst
  | cons w ws ih =>
    intro st hsub hst
    rw [List.foldl_cons]
    apply ih
    · intro x hx
      exact hsub x (List.mem_cons_of_mem _ hx)
    · intro s hs
      have hw : w ∈ allWs := hsub w (List.mem_cons_self w ws)
      rcases pendingSegments_mapWordsStep_mem st w s hs with h | ⟨h1, h2⟩ | ⟨c, hcmem, h1, h2⟩
      · exact hst s h
      · exact ⟨⟨w, hw, h1⟩, ⟨w, hw, h2⟩⟩
      · obtain ⟨⟨w1, hw1, hc1⟩, _⟩ := hst c hcmem
        exact ⟨⟨w1, hw1, by rw [h1, hc1]⟩, ⟨w, hw, h2⟩⟩

/-- The utterance mapper converts each utterance's millisecond timestamps to
seconds by exact division. -/
theorem segmentsFromUtterancesList_timestamps (k : Nat)
    (us : List AssemblyUtteranceResponse) :
    (segmentsFromUtterancesList k us).map (fun s => (s.start, s.stop))
      = us.map fun u => ((u.start : ℚ) / 1000, (u.stop : ℚ) / 1000) := by
  induction us generalizing k with
  | nil => rfl
  | cons u us ih => simp [segmentsFromUtterancesList, utteranceToSegment, ih]

/-- The utterance mapper is empty exactly on the empty utterance list. -/
theorem segmentsFromUtterancesList_isEmpty (k : Nat)
    (us : List AssemblyUtteranceResponse) :
    (segmentsFromUtterancesList k us).isEmpty = us.isEmpty := by
  cases us with
  | nil => rfl
  | cons u us => rfl

/-- With a non-empty utterance list, the result's segments are exactly the
mapped utterances. -/
theorem mapAssembly_segments_of_utterances (t : AssemblyTranscriptResponse)
    (us : List AssemblyUtteranceResponse) (hu : t.utterances = some us) (hne : us ≠ []) :
    (mapAssemblyResponseToResult t).segments = some (segmentsFromUtterancesList 0 us) := by
  have hemp : (segmentsFromUtterancesList 0 us).isEmpty = false := by
    rw [segmentsFromUtterancesList_isEmpty]
    cases us with
    | nil => exact absurd rfl hne
    | cons u us => rfl
  have hassembly : assemblySegments t = some (segmentsFromUtterancesList 0 us) := by
    unfold assemblySegments
    rw [hu]
    simp [hemp]
  rw [mapAssembly_segments_eq, hassembly]
  simp [hemp]

/-- Claim C2: mapped segment timestamps are the provider's millisecond values
divided exactly by 1000 — for the utterance mapping, each segment's start and
end are the utterance's values over 1000; for the word-list fallback, each
produced segment's start and end equal some source word's start and end over
1000. -/
theorem c2_millisecond_unit_conversion (t : AssemblyTranscriptResponse) :
    (∀ us, t.utterances = some us → us ≠ [] →
      ((mapAssemblyResponseToResult t).segments.getD []).map (fun s => (s.start, s.stop))
        = us.map fun u => ((u.start : ℚ) / 1000, (u.stop : ℚ) / 1000))
    ∧ (∀ ws l, mapWordsToSegments (some ws) = some l →
        ∀ s ∈ l, timestampsFromWords ws s) := by
  constructor
  · intro us hu hne
    rw [mapAssembly_segments_of_utterances t us hu hne]
    rw [Option.getD_some]
    exact segmentsFromUtterancesList_timestamps 0 us
  · intro ws l h s hs
    rw [mapWordsToSegments_eq_pending ws l h] at hs
    refine foldl_mapWordsStep_timestamps ws ws ⟨[], none, 1⟩ (fun _ hx => hx) ?_ s hs
    intro s hs0
    exact absurd hs0 (by simp [pendingSegments])

/-- Witness for C2 on the spec's scenario `{start: 1200, end: 2400}`: the
mapped segment is `{start: 1.2, end: 2.4}`. -/
theorem c2_millisecond_unit_conversion_witness :
    ((mapAssemblyResponseToResult exTimestampResponse).segments.getD []).map
        (fun s => (s.start, s.stop)) = [((1.2 : ℚ), (2.4 : ℚ))] := by
  have h := (c2_millisecond_unit_conversion exTimestampResponse).1
    [{ start := 1200, stop := 2400, speaker := none, text := "hi" }] rfl (by simp)
  rw [h]
  norm_num

/-- A non-empty word list always maps to the final fold state's pending
segments. -/
theorem mapWordsToSegments_cons (w : AssemblyWordResponse) (ws : List AssemblyWordResponse) :
    mapWordsToSegments (some (w :: ws))
      = some (pendingSegments ((w :: ws).foldl mapWordsStep ⟨[], none, 1⟩)) := rfl

/-- The first pending segment's speaker survives the whole fold, and the
pending list never becomes empty again. -/
theorem foldl_mapWordsStep_head_speaker :
    ∀ (ws : List AssemblyWordResponse) (st : WordsState), pendingSegments st ≠ [] →
      ((pendingSegments (ws.foldl mapWordsStep st)).head?).map TranscriptSegment.speaker
          = ((pendingSegments st).head?).map TranscriptSegment.speaker
      ∧ pendingSegments (ws.foldl mapWordsStep st) ≠ [] := by
  intro ws
  induction ws with
  | nil =>
    intro st h
    exact ⟨rfl, h⟩
  | cons w ws ih =>
    intro st h
    rw [List.foldl_cons]
    obtain ⟨h1, h2⟩ := pendingSegments_mapWordsStep_head st w h
    obtain ⟨h3, h4⟩ := ih (mapWordsStep st w) h2
    exact ⟨h3.trans h1, h4⟩

/-- An unlabeled first word with a usable token opens the first segment with
the fallback label `Speaker 1`, and that stays the first segment's speaker. -/
theorem mapWords_first_fallback_label (w : AssemblyWordResponse)
    (ws : List AssemblyWordResponse)
    (hb : speakerBlank w.speaker = true) (ht : wordToken w ≠ "") :
    ((mapWordsToSegments (some (w :: ws))).getD []).head?.map TranscriptSegment.speaker
      = some "Speaker 1" := by
  have hli : stepLabelIdx ⟨[], none, 1⟩ w = ("Speaker 1", 2) := by
    unfold stepLabelIdx
    rw [if_pos hb]
    rfl
  have hstep : mapWordsStep ⟨[], none, 1⟩ w
      = ⟨[], some
          { start := (w.start : ℚ) / 1000, stop := (w.stop : ℚ) / 1000,
            speaker := "Speaker 1", text := wordToken w }, 2⟩ := by
    unfold mapWordsStep
    rw [if_neg ht, hli]
  rw [mapWordsToSegments_cons, Option.getD_some, List.foldl_cons, hstep]
  obtain ⟨hh, _⟩ := foldl_mapWordsStep_head_speaker ws
    ⟨[], some
      { start := (w.start : ℚ) / 1000, stop := (w.stop : ℚ) / 1000,
        speaker := "Speaker 1", text := wordToken w }, 2⟩ (by simp [pendingSegments])
  rw [hh]
  rfl

/-- A word carrying the explicit speaker value `2` is labeled `Speaker 2` and
does not consume a fallback number. -/
theorem mapWordsStep_explicit_speaker (st : WordsState) (w : AssemblyWordResponse)
    (hs : w.speaker = some "2") (ht : wordToken w ≠ "") :
    ∃ c', (mapWordsStep st w).current = some c' ∧ c'.speaker = "Speaker 2"
      ∧ (mapWordsStep st w).fallbackSpeakerIndex = st.fallbackSpeakerIndex := by
  have hli : stepLabelIdx st w = ("Speaker 2", st.fallbackSpeakerIndex) := by
    unfold stepLabelIdx
    rw [hs, if_neg (by decide)]
    rfl
  rcases mapWordsStep_cases st w with ⟨ht', _⟩ | ⟨_, c, hc, hsp, heq⟩ | ⟨_, heq⟩
  · exact absurd ht' ht
  · refine ⟨_, by rw [heq], ?_, by rw [heq, hli]⟩
    rw [hsp, hli]
  · refine ⟨_, by rw [heq], ?_, by rw [heq, hli]⟩
    rw [hli]

/-- An unlabeled word arriving while a segment is being built inherits that
segment's speaker and leaves the fallback counter untouched. -/
theorem mapWordsStep_inherits_speaker (st : WordsState) (w : AssemblyWordResponse)
    (c : TranscriptSegment) (hb : speakerBlank w.speaker = true)
    (hc : st.current = some c) (hcs : c.speaker ≠ "") :
    (mapWordsStep st w).fallbackSpeakerIndex = st.fallbackSpeakerIndex
    ∧ ∃ c', (mapWordsStep st w).current = some c' ∧ c'.speaker = c.speaker := by
  have hred : stepLabelIdx st w
      = if c.speaker = "" then
          ("Speaker " ++ toString st.fallbackSpeakerIndex, st.fallbackSpeakerIndex + 1)
        else (c.speaker, st.fallbackSpeakerIndex) := by
    unfold stepLabelIdx
    rw [if_pos hb, hc]
  have hli : stepLabelIdx st w = (c.speaker, st.fallbackSpeakerIndex) := by
    rw [hred, if_neg hcs]
  rcases mapWordsStep_cases st w with ⟨ht, heq⟩ | ⟨ht, c0, hc0, hsp, heq⟩ | ⟨ht, heq⟩
  · refine ⟨by rw [heq, hli], c, ?_, rfl⟩
    rw [heq]
    exact hc
  · have hcc : c0 = c := by
      rw [hc0] at hc
      exact Option.some_inj.mp hc
    refine ⟨by rw [heq, hli], _, by rw [heq], ?_⟩
    rw [hcc]
  · refine ⟨by rw [heq, hli], _, by rw [heq], ?_⟩
    rw [hli]

/-- Claim C3: in the word-list fallback, an unlabeled first word gets
`Speaker 1`; a word with explicit speaker value `2` gets `Speaker 2` without
consuming a fallback number; and an unlabeled word following a labeled one
inherits the current segment's speaker, leaving the fallback counter
untouched. -/
theorem c3_fallback_speaker_labeling :
    (∀ w ws, speakerBlank w.speaker = true → wordToken w ≠ "" →
      ((mapWordsToSegments (some (w :: ws))).getD []).head?.map TranscriptSegment.speaker
        = some "Speaker 1")
    ∧ (∀ st w, w.speaker = some "2" → wordToken w ≠ "" →
        ∃ c', (mapWordsStep st w).current = some c' ∧ c'.speaker = "Speaker 2"
          ∧ (mapWordsStep st w).fallbackSpeakerIndex = st.fallbackSpeakerIndex)
    ∧ (∀ st w c, speakerBlank w.speaker = true → st.current = some c → c.speaker ≠ "" →
        (mapWordsStep st w).fallbackSpeakerIndex = st.fallbackSpeakerIndex
        ∧ ∃ c', (mapWordsStep st w).current = some c' ∧ c'.speaker = c.speaker) :=
  ⟨mapWords_first_fallback_label, mapWordsStep_explicit_speaker,
   mapWordsStep_inherits_speaker⟩

/-- Witness for C3 on the spec's scenario: `Hello`/`there` (no speaker),
then `Hi` with explicit speaker `2`, then `back` (no speaker). -/
theorem c3_fallback_speaker_labeling_witness :
    (((mapWordsToSegments (some exSpeakerWords)).getD []).head?.map TranscriptSegment.speaker
        = some "Speaker 1")
    ∧ (∃ c', (mapWordsStep ⟨[], some ⟨0, 9/10, "Speaker 1", "Hello there"⟩, 2⟩
            { start := 1000, stop := 1400, text := "Hi", speaker := some "2" }).current
          = some c'
        ∧ c'.speaker = "Speaker 2"
        ∧ (mapWordsStep ⟨[], some ⟨0, 9/10, "Speaker 1", "Hello there"⟩, 2⟩
            { start := 1000, stop := 1400, text := "Hi",
              speaker := some "2" }).fallbackSpeakerIndex = 2)
    ∧ ((mapWordsStep ⟨[⟨0, 9/10, "Speaker 1", "Hello there"⟩],
            some ⟨1, 7/5, "Speaker 2", "Hi"⟩, 2⟩
            { start := 1500, stop := 1900, text := "back" }).fallbackSpeakerIndex = 2
        ∧ ∃ c', (mapWordsStep ⟨[⟨0, 9/10, "Speaker 1", "Hello there"⟩],
              some ⟨1, 7/5, "Speaker 2", "Hi"⟩, 2⟩
              { start := 1500, stop := 1900, text := "back" }).current = some c'
          ∧ c'.speaker = "Speaker 2") := by
  refine ⟨?_, ?_, ?_⟩
  · exact c3_fallback_speaker_labeling.1
      { start := 0, stop := 400, text := "Hello" }
      [{ start := 500, stop := 900, text := "there" },
       { start := 1000, stop := 1400, text := "Hi", speaker := some "2" },
       { start := 1500, stop := 1900, text := "back" }]
      (by decide) (by decide)
  · exact c3_fallback_speaker_labeling.2.1 _ _ rfl (by decide)
  · exact c3_fallback_speaker_labeling.2.2 _ _ ⟨1, 7/5, "Speaker 2", "Hi"⟩
      (by decide) rfl (by decide)

/-- The result's `segments` field, when present, is the `segments` local of
the mapper and is non-empty. -/
theorem mapAssembly_segments_some (t : AssemblyTranscriptResponse)
    (l : List TranscriptSegment) (h : (mapAssemblyResponseToResult t).segments = some l) :
    assemblySegments t = some l := by
  rw [mapAssembly_segments_eq] at h
  cases ha : assemblySegments t with
  | none =>
    rw [ha] at h
    exact absurd h (by simp)
  | some l0 =>
    rw [ha] at h
    have h' : (if l0.isEmpty = true then none else some l0) = some l := h
    by_cases hl : l0.isEmpty = true
    · rw [if_pos hl] at h'
      exact absurd h' (by simp)
    · rw [if_neg hl] at h'
      rw [Option.some_inj.mp h']

/-- The `segments` local comes from the utterance mapper (on a non-empty
utterance list) or from the word fallback. -/
theorem assemblySegments_cases (t : AssemblyTranscriptResponse) :
    (∃ us, t.utterances = some us ∧ (segmentsFromUtterancesList 0 us).isEmpty = false
        ∧ assemblySegments t = some (segmentsFromUtterancesList 0 us))
    ∨ assemblySegments t = mapWordsToSegments t.words := by
  unfold assemblySegments
  cases hut : t.utterances with
  | none =>
    right
    rfl
  | some us =>
    by_cases hemp : (segmentsFromUtterancesList 0 us).isEmpty
    · right
      simp [hemp]
    · left
      exact ⟨us, rfl, by simpa using hemp, by simp [hemp]⟩

/-- Fold invariant for C5: if the incoming word starts are sorted and bound
the pending starts from above, the pending start list stays sorted. -/
theorem foldl_mapWordsStep_starts_sorted :
    ∀ (ws : List AssemblyWordResponse) (st : WordsState),
      List.Pairwise (fun a b : AssemblyWordResponse => a.start ≤ b.start) ws →
      List.Pairwise (· ≤ ·) (segStarts (pendingSegments st)) →
      (∀ x ∈ segStarts (pendingSegments st), ∀ w ∈ ws, x ≤ (w.start : ℚ) / 1000) →
      List.Pairwise (· ≤ ·) (segStarts (pendingSegments (ws.foldl mapWordsStep st))) := by
  intro ws
  induction ws with
  | nil =>
    intro st _ hp _
    exact hp
  | cons w ws ih =>
    intro st hws hp hb
    rw [List.foldl_cons]
    have hws' := List.pairwise_cons.mp hws
    rcases segStarts_pendingSegments_mapWordsStep st w with he | he
    · apply ih _ hws'.2
      · rw [he]
        exact hp
      · intro x hx w' hw'
        rw [he] at hx
        exact hb x hx w' (List.mem_cons_of_mem _ hw')
    · apply ih _ hws'.2
      · rw [he, List.pairwise_append]
        refine ⟨hp, List.pairwise_singleton _ _, ?_⟩
        intro x hx y hy
        rw [List.mem_singleton] at hy
        rw [hy]
        exact hb x hx w (List.mem_cons_self w ws)
      · intro x hx w' hw'
        rw [he] at hx
        rcases List.mem_append.mp hx with h1 | h2
        · exact hb x h1 w' (List.mem_cons_of_mem _ hw')
        · rw [List.mem_singleton] at h2
          rw [h2]
          have hle : w.start ≤ w'.start := hws'.1 w' hw'
          have : (w.start : ℚ) ≤ (w'.start : ℚ) := by exact_mod_cast hle
          linarith

/-- The word fallback preserves time order: sorted word starts give sorted
segment starts. -/
theorem mapWordsToSegments_sorted (ws : List AssemblyWordResponse)
    (hws : List.Chain' (fun a b : AssemblyWordResponse => a.start ≤ b.start) ws)
    (l : List TranscriptSegment) (h : mapWordsToSegments (some ws) = some l) :
    List.Chain' (fun a b : TranscriptSegment => a.start ≤ b.start) l := by
  have hpair : List.Pairwise (fun a b : AssemblyWordResponse => a.start ≤ b.start) ws := by
    have h1 : List.Chain' (· ≤ ·) (ws.map AssemblyWordResponse.start) :=
      (List.chain'_map _).mpr hws
    exact List.pairwise_map.mp (List.chain'_iff_pairwise.mp h1)
  have hsorted := foldl_mapWordsStep_starts_sorted ws ⟨[], none, 1⟩ hpair
    (by simp [pendingSegments, segStarts])
    (by intro x hx w hw; simp [pendingSegments, segStarts] at hx)
  rw [mapWordsToSegments_eq_pending ws l h]
  have hpw : List.Pairwise (fun a b : TranscriptSegment => a.start ≤ b.start)
      (pendingSegments (ws.foldl mapWordsStep ⟨[], none, 1⟩)) := by
    unfold segStarts at hsorted
    exact List.pairwise_map.mp hsorted
  exact hpw.chain'

/-- The starts of the mapped utterances are the utterance starts over 1000. -/
theorem segmentsFromUtterancesList_starts (k : Nat) (us : List AssemblyUtteranceResponse) :
    (segmentsFromUtterancesList k us).map TranscriptSegment.start
      = us.map fun u => (u.start : ℚ) / 1000 := by
  induction us generalizing k with
  | nil => rfl
  | cons u us ih => simp [segmentsFromUtterancesList, utteranceToSegment, ih]

/-- The utterance mapping preserves time order. -/
theorem segmentsFromUtterancesList_sorted (us : List AssemblyUtteranceResponse)
    (hus : List.Chain' (fun a b : AssemblyUtteranceResponse => a.start ≤ b.start) us) :
    List.Chain' (fun a b : TranscriptSegment => a.start ≤ b.start)
      (segmentsFromUtterancesList 0 us) := by
  have h1 : List.Chain' (· ≤ ·)
      ((segmentsFromUtterancesList 0 us).map TranscriptSegment.start) := by
    rw [segmentsFromUtterancesList_starts, List.chain'_map]
    apply List.Chain'.imp ?_ hus
    intro a b hab
    have hc : (a.start : ℚ) ≤ (b.start : ℚ) := by exact_mod_cast hab
    exact div_le_div_of_nonneg_right hc (by norm_num)
  exact (List.chain'_map _).mp h1

/-- Claim C5: when the utterance list (or the word list, for the fallback) is
time-ordered, the mapped segment list has non-decreasing start values. -/
theorem c5_segment_order_preserved (t : AssemblyTranscriptResponse)
    (hu : List.Chain' (fun a b : AssemblyUtteranceResponse => a.start ≤ b.start)
      (t.utterances.getD []))
    (hw : List.Chain' (fun a b : AssemblyWordResponse => a.start ≤ b.start)
      (t.words.getD []))
    (l : List TranscriptSegment)
    (hl : (mapAssemblyResponseToResult t).segments = some l) :
    List.Chain' (fun a b : TranscriptSegment => a.start ≤ b.start) l := by
  have ha := mapAssembly_segments_some t l hl
  rcases assemblySegments_cases t with ⟨us, hus, hemp, heq⟩ | heq
  · rw [heq] at ha
    rw [← Option.some_inj.mp ha]
    apply segmentsFromUtterancesList_sorted
    rw [hus] at hu
    exact hu
  · rw [heq] at ha
    cases hwords : t.words with
    | none =>
      rw [hwords] at ha
      exact absurd ha (by simp [mapWordsToSegments])
    | some ws =>
      rw [hwords] at ha
      apply mapWordsToSegments_sorted ws ?_ l ha
      rw [hwords] at hw
      exact hw

/-- Witness for C5: a time-ordered three-utterance response maps to segments
with non-decreasing starts. -/
theorem c5_segment_order_preserved_witness :
    List.Chain' (fun a b : TranscriptSegment => a.start ≤ b.start)
      ((mapAssemblyResponseToResult exOrderedResponse).segments.getD []) := by
  refine c5_segment_order_preserved exOrderedResponse ?_ ?_ _ rfl
  · norm_num [exOrderedResponse, List.chain'_cons]
  · norm_num [exOrderedResponse]
